import Mathlib

/-!
Verification of the sample-preparation core of `src/irida.py`
(the `prepare` command and its helper `create_project`).

Filenames and all other Python strings are embedded as `List Char`
(named `Str` below).  The two regular expressions compiled in `prepare`
are embedded as per-position matchers (a Python `regex.split(s)[0]` only
depends on the start position of the leftmost match, which is the first
position whose suffix is matched by some alternative).  Python's
`str.replace`, `str.split`, `in` (substring) and `int` are embedded by
`replaceAll`, `splitOnSep`, `containsSub` and `pyInt`.  `sorted` with a
`key` function is embedded as a stable insertion sort over the
precomputed `(element, key)` pairs, which has the same input/output
behaviour as Python's stable sort; an element whose key computation
raises `ValueError` aborts the sort exactly as in Python.

The side effects of `prepare` (the two remote API operations performed
by `create_project`, the opening of `SampleList.csv` and each `fh.write`
call, and a raised exception) are embedded as an explicit event trace
`List Event`, in the order the Python code performs them.
-/

namespace Irida

/-- Python strings are embedded as lists of characters. -/
abbrev Str := List Char

/-! ## The two compiled regular expressions of `prepare`

`prepare` compiles
`_S[0-9]{1,3}|_R[12].|_1.non_host.fastq.gz|_2.non_host.fastq.gz`
in paired-end mode and `.fastq|.fq.` in single-end mode, and only ever
uses `regex.split(s)[0]`: the prefix of `s` before the start of the
leftmost match.  Each alternative is embedded as a matcher on the
suffix starting at a candidate position; an unescaped `.` matches any
character except a newline. -/

/-- `.` in a Python regex (no DOTALL): any character except a newline. -/
def reAny (c : Char) : Bool := c != '\n'

/-- Alternative `_S[0-9]{1,3}` matches at the head of `t` (a greedy
`{1,3}` starts a match exactly when at least one digit follows). -/
def alt_S : Str → Bool
  | '_' :: 'S' :: c :: _ => c.isDigit
  | _ => false

/-- Alternative `_R[12].` matches at the head of `t`. -/
def alt_R12 : Str → Bool
  | '_' :: 'R' :: c :: d :: _ => (c == '1' || c == '2') && reAny d
  | _ => false

/-- Alternative `_1.non_host.fastq.gz` (resp. `_2...`) matches at the
head of `t`; the three unescaped `.` match any non-newline character. -/
def alt_nonhost (r : Char) : Str → Bool
  | '_' :: c :: d1 :: 'n' :: 'o' :: 'n' :: '_' :: 'h' :: 'o' :: 's' :: 't' :: d2 ::
      'f' :: 'a' :: 's' :: 't' :: 'q' :: d3 :: 'g' :: 'z' :: _ =>
    c == r && reAny d1 && reAny d2 && reAny d3
  | _ => false

/-- The paired-end regex matches at the head of `t`
(`_S[0-9]{1,3}|_R[12].|_1.non_host.fastq.gz|_2.non_host.fastq.gz`). -/
def peMatch (t : Str) : Bool :=
  alt_S t || alt_R12 t || alt_nonhost '1' t || alt_nonhost '2' t

/-- Alternative `.fastq` matches at the head of `t`. -/
def alt_dotfastq : Str → Bool
  | d :: 'f' :: 'a' :: 's' :: 't' :: 'q' :: _ => reAny d
  | _ => false

/-- Alternative `.fq.` matches at the head of `t`. -/
def alt_dotfq : Str → Bool
  | d :: 'f' :: 'q' :: e :: _ => reAny d && reAny e
  | _ => false

/-- The single-end regex `.fastq|.fq.` matches at the head of `t`. -/
def seMatch (t : Str) : Bool := alt_dotfastq t || alt_dotfq t

/-- `regex.split(s)[0]`: the prefix of `s` strictly before the start of
the leftmost position whose suffix the regex matches; all of `s` when
there is no match. -/
def splitHead (m : Str → Bool) : Str → Str
  | [] => []
  | c :: rest => if m (c :: rest) then [] else c :: splitHead m rest

/-! ## Python string primitives -/

/-- Python `sub in s` (substring containment). -/
def containsSub (pat : Str) : Str → Bool
  | [] => pat.isEmpty
  | c :: rest => pat.isPrefixOf (c :: rest) || containsSub pat rest

/-- Worker for `replaceAll`; the fuel only serves structural
termination and never runs out when it starts at the input length. -/
def replaceAllGo (pat rep : Str) : Nat → Str → Str
  | _, [] => []
  | 0, l => l
  | fuel + 1, c :: rest =>
    if pat.isPrefixOf (c :: rest) && !pat.isEmpty then
      rep ++ replaceAllGo pat rep fuel (rest.drop (pat.length - 1))
    else
      c :: replaceAllGo pat rep fuel rest

/-- Python `s.replace(pat, rep)` for a non-empty `pat`: replace every
non-overlapping occurrence, scanning left to right. -/
def replaceAll (pat rep s : Str) : Str := replaceAllGo pat rep s.length s

/-- Worker for `splitOnSep`; the fuel only serves structural
termination and never runs out when it starts at the input length. -/
def splitOnSepGo (sep : Str) : Nat → Str → List Str
  | _, [] => [[]]
  | 0, l => [l]
  | fuel + 1, c :: rest =>
    if sep.isPrefixOf (c :: rest) && !sep.isEmpty then
      [] :: splitOnSepGo sep fuel (rest.drop (sep.length - 1))
    else
      match splitOnSepGo sep fuel rest with
      | [] => [[c]]
      | h :: tl => (c :: h) :: tl

/-- Python `s.split(sep)` for a non-empty separator `sep`. -/
def splitOnSep (sep s : Str) : List Str := splitOnSepGo sep s.length s

/-- The numeric value of a non-empty run of decimal digits. -/
def digitsVal : Str → Option Nat
  | [] => none
  | l =>
    if l.all Char.isDigit then
      some (l.foldl (fun acc c => acc * 10 + (c.toNat - '0'.toNat)) 0)
    else none

/-- Python `s.strip()`: remove leading and trailing whitespace. -/
def pyStrip (l : Str) : Str :=
  ((l.dropWhile Char.isWhitespace).reverse.dropWhile Char.isWhitespace).reverse

/-- Python `int(s)`: `none` embeds the raised `ValueError`. -/
def pyInt (l : Str) : Option Int :=
  match pyStrip l with
  | '+' :: rest => (digitsVal rest).map Int.ofNat
  | '-' :: rest => (digitsVal rest).map (fun n => -(n : Int))
  | s => (digitsVal s).map Int.ofNat

/-! ## Errors raised by `prepare` -/

/-- The two exceptions `prepare` can raise while assembling the
manifest: the `ValueError` from `int()` when sorting meets a
non-numeric trailing token (the spec's `UnsortableFilename`), and the
`ValueError("Invalid file name: ...")` raised when no pairing rule
matches (the spec's `UnrecognizedPairingConvention`). -/
inductive PrepError where
  | unsortable (token : Str)
  | invalidFileName (fname : Str)
deriving DecidableEq

instance {ε α : Type} [DecidableEq ε] [DecidableEq α] : DecidableEq (Except ε α) := fun x y =>
  match x, y with
  | .ok a, .ok b => if h : a = b then .isTrue (by rw [h]) else .isFalse (by simp [h])
  | .error a, .error b => if h : a = b then .isTrue (by rw [h]) else .isFalse (by simp [h])
  | .ok _, .error _ => .isFalse (by simp)
  | .error _, .ok _ => .isFalse (by simp)

/-! ## Sorting: `sorted(fastq_names, key=lambda s: int(regex.split(s)[0].split("_")[-1]))` -/

/-- The sort key of one filename: the last `_`-delimited segment of the
prefix before the first regex match, parsed by Python `int`. -/
def sortKey (rm : Str → Bool) (s : Str) : Option Int :=
  pyInt ((splitOnSep ['_'] (splitHead rm s)).getLastD [])

/-- The token handed to `int()` for one filename. -/
def sortToken (rm : Str → Bool) (s : Str) : Str :=
  (splitOnSep ['_'] (splitHead rm s)).getLastD []

/-- The key value of a filename whose key exists (default irrelevant). -/
def keyValD (rm : Str → Bool) (s : Str) : Int := (sortKey rm s).getD 0

/-- Python `sorted` first computes every key in list order and raises
the `ValueError` of the first failing key computation. -/
def computeKeys (rm : Str → Bool) : List Str → Except PrepError (List (Str × Int))
  | [] => .ok []
  | s :: rest =>
    match sortKey rm s with
    | none => .error (.unsortable (sortToken rm s))
    | some k => (computeKeys rm rest).map (fun ps => (s, k) :: ps)

/-- Comparison on `(filename, key)` pairs by key. -/
def keyLE (a b : Str × Int) : Prop := a.2 ≤ b.2

instance : DecidableRel keyLE := fun a b => Int.decLe a.2 b.2

instance : IsTotal (Str × Int) keyLE := ⟨fun a b => Int.le_total a.2 b.2⟩

instance : IsTrans (Str × Int) keyLE := ⟨fun _ _ _ h1 h2 => le_trans h1 h2⟩

/-- The sorting step of `prepare`: when `sort` is requested, reorder by
ascending key with a stable sort (Python's `sorted` is stable, and all
stable sorts by the same key agree, so a stable insertion sort embeds
it exactly); otherwise keep scan order. -/
def sortNames (rm : Str → Bool) (sort : Bool) (names : List Str) : Except PrepError (List Str) :=
  if sort then
    (computeKeys rm names).map (fun ps => (List.insertionSort keyLE ps).map Prod.fst)
  else .ok names

/-! ## The event trace of `prepare` -/

/-- The observable effects of one `prepare` invocation, in program
order: the remote listing fetch and create call of `create_project`,
its duplicate-name warning, opening `SampleList.csv` (mode `"w"`), each
`fh.write`, and a raised exception. -/
inductive Event where
  | listProjects
  | createProject (name desc : Str)
  | warn
  | openFile
  | write (s : Str)
  | raiseErr (e : PrepError)
deriving DecidableEq

/-- One project of the remote listing returned by `get_projects()`. -/
structure ProjectRef where
  id : Str
  name : Str
deriving DecidableEq

/-- The default project description
`f"Created on {datetime.date.today()} by BOT"`. -/
def defaultDesc (today : Str) : Str :=
  "Created on ".toList ++ today ++ " by BOT".toList

/-- `create_project(name, config_file, project_description)`: fetch the
remote listing once; if some listed project has exactly the requested
name, warn and return the first such project's id; otherwise send one
create request and return the identifier of the create response
(`created_project['resource']['identifier']`, embedded as
`create_resp`).  The returned pair is (resolved id, event trace). -/
def create_project (listing : List ProjectRef) (create_resp today : Str)
    (name : Str) (project_description : Option Str) : Str × List Event :=
  let desc := project_description.getD (defaultDesc today)
  match (listing.filter (fun prj => prj.name == name)).map ProjectRef.id with
  | [] => (create_resp, [Event.listProjects, Event.createProject name desc])
  | i :: _ => (i, [Event.listProjects, Event.warn])

/-! ## Project-name derivation in `prepare` -/

/-- `re.search("[0-9]{6}(?=\_NB)", path)` matches at the head of `t`. -/
def sixDigitsNB : Str → Bool
  | a :: b :: c :: d :: e :: f :: '_' :: 'N' :: 'B' :: _ =>
    a.isDigit && b.isDigit && c.isDigit && d.isDigit && e.isDigit && f.isDigit
  | _ => false

/-- The leftmost six-digit run of `path` followed by `_NB`, if any. -/
def run_date_search : Str → Option Str
  | [] => none
  | c :: rest =>
    if sixDigitsNB (c :: rest) then some ((c :: rest).take 6)
    else run_date_search rest

/-- `f'QIB-{p.parts[-1].replace("_","-")}-{run_date}'`, with the
run date falling back to `datetime.date.today().strftime("%y%m%d")`
(parameter `today_yymmdd`).  `path_last` stands for `p.parts[-1]`, the
last component of the target directory path. -/
def derive_project_name (path path_last today_yymmdd : Str) : Str :=
  let run_date := (run_date_search path).getD today_yymmdd
  "QIB-".toList ++ path_last.map (fun c => if c == '_' then '-' else c) ++ '-' :: run_date

/-! ## Pairing of forward and reverse reads -/

/-- The lane-numbered read-1 marker `"_R1_"`. -/
def r1_lane : Str := "_R1_".toList

/-- The lane-numbered read-2 marker `"_R2_"`. -/
def r2_lane : Str := "_R2_".toList

/-- The filtered read-1 suffix `"_R1.non_host.fastq.gz"`. -/
def r1_filtered : Str := "_R1.non_host.fastq.gz".toList

/-- The filtered read-2 suffix `"_R2.non_host.fastq.gz"`. -/
def r2_filtered : Str := "_R2.non_host.fastq.gz".toList

/-- The reverse-read filename computed inside the write loop of
`prepare`: in paired-end mode, substitute `_R1_` if present, else the
filtered suffix if present, else raise
`ValueError(f"Invalid file name: {name}")`; in single-end mode the
reverse field is the empty string. -/
def reverseName (pe : Bool) (fname : Str) : Except PrepError Str :=
  if pe then
    if containsSub r1_lane fname then .ok (replaceAll r1_lane r2_lane fname)
    else if containsSub r1_filtered fname then
      .ok (replaceAll r1_filtered r2_filtered fname)
    else .error (.invalidFileName fname)
  else .ok []

/-- A paired-end forward filename some pairing rule recognizes. -/
def pairable (fname : Str) : Bool :=
  containsSub r1_lane fname || containsSub r1_filtered fname

/-- The reverse filename of a pairable forward filename. -/
def pairReverse (fname : Str) : Str :=
  if containsSub r1_lane fname then replaceAll r1_lane r2_lane fname
  else replaceAll r1_filtered r2_filtered fname

/-! ## Manifest lines -/

/-- The field separator of a manifest row. -/
def commaSpace : Str := ", ".toList

/-- The body of one manifest row,
`f"{sample_id}, {pid}, {forward}, {reverse}"`. -/
def rowLine (sid pid fwd rev : Str) : Str :=
  sid ++ commaSpace ++ pid ++ commaSpace ++ fwd ++ commaSpace ++ rev

/-- One manifest row as written (with its trailing newline). -/
def rowLineN (sid pid fwd rev : Str) : Str := rowLine sid pid fwd rev ++ ['\n']

/-- The literal section marker line. -/
def dataLine : Str := "[Data]".toList

/-- The literal column-header line. -/
def headerLine : Str := "Sample_Name,Project_ID,File_Forward,File_Reverse".toList

/-- The section marker as written (`fh.write("[Data]\n")`). -/
def dataLineN : Str := dataLine ++ ['\n']

/-- The column header as written. -/
def headerLineN : Str := headerLine ++ ['\n']

/-- The write loop over the (sample id, filename) pairs: each iteration
first computes the reverse filename - raising ends the loop with only
the earlier rows written - and then writes one row. -/
def buildRowEvents (pe : Bool) (pid : Str) : List (Str × Str) → List Event
  | [] => []
  | (sid, fname) :: rest =>
    match reverseName pe fname with
    | .error e => [Event.raiseErr e]
    | .ok rev => Event.write (rowLineN sid pid fname rev) :: buildRowEvents pe pid rest

/-- The scan/sort/write part of `prepare`, after the project id is in
hand: choose the regex by `pe`, force the glob to `*.fastq.gz` in
single-end mode, scan, optionally sort (a key failure raises before the
manifest file is opened), derive the sample ids, then open
`SampleList.csv` and write the two header lines and the rows. -/
def prepare_scan (scan : Str → List Str) (pattern : Str) (pid : Str)
    (pe sort : Bool) : List Event :=
  let rm := if pe then peMatch else seMatch
  let pattern := if pe then pattern else "*.fastq.gz".toList
  let fastq_names := scan pattern
  match sortNames rm sort fastq_names with
  | .error e => [Event.raiseErr e]
  | .ok sorted_names =>
    let sample_ids := sorted_names.map (splitHead rm)
    Event.openFile :: Event.write dataLineN :: Event.write headerLineN ::
      buildRowEvents pe pid (sample_ids.zip sorted_names)

/-- The `prepare` command.  `scan` embeds `p.rglob(pattern)` (the names
of the files the directory scan yields for a glob pattern, in scan
order); `listing`, `create_resp`, `today`, `today_yymmdd` embed the
remote listing, the identifier a create response would carry, and the
two date stampings.  When `--pid` is absent the project is resolved by
`create_project`, under `--name` if given, else under the name derived
from the directory name and a date token. -/
def prepare (listing : List ProjectRef) (create_resp today today_yymmdd : Str)
    (scan : Str → List Str) (path path_last pattern : Str)
    (pid name : Option Str) (pe sort : Bool) : List Event :=
  match pid with
  | some p => prepare_scan scan pattern p pe sort
  | none =>
    let project_name := name.getD (derive_project_name path path_last today_yymmdd)
    let r := create_project listing create_resp today project_name none
    r.2 ++ prepare_scan scan pattern r.1 pe sort

/-- The project id `prepare` embeds into every manifest row. -/
def resolved_pid (listing : List ProjectRef) (create_resp today today_yymmdd : Str)
    (path path_last : Str) (pid name : Option Str) : Str :=
  match pid with
  | some p => p
  | none =>
    (create_project listing create_resp today
      (name.getD (derive_project_name path path_last today_yymmdd)) none).1

/-- The project-resolution events of one `prepare` invocation. -/
def resolve_events (listing : List ProjectRef) (create_resp today today_yymmdd : Str)
    (path path_last : Str) (pid name : Option Str) : List Event :=
  match pid with
  | some _ => []
  | none =>
    (create_project listing create_resp today
      (name.getD (derive_project_name path path_last today_yymmdd)) none).2

/-! ## Trace observations -/

/-- Remote API events. -/
def isRemote : Event → Bool
  | .listProjects => true
  | .createProject _ _ => true
  | _ => false

/-- File-write events. -/
def isWrite : Event → Bool
  | .write _ => true
  | _ => false

/-- How many times the remote listing was fetched. -/
def listCalls (tr : List Event) : Nat :=
  (tr.filter (fun e => match e with | .listProjects => true | _ => false)).length

/-- The create requests issued, as (name, description) pairs. -/
def createCalls (tr : List Event) : List (Str × Str) :=
  tr.filterMap (fun e => match e with | .createProject n d => some (n, d) | _ => none)

/-- `true` when some remote API event happens after some file write. -/
def remoteAfterWrite : List Event → Bool
  | [] => false
  | e :: rest => (isWrite e && rest.any isRemote) || remoteAfterWrite rest

/-! ## The manifest artifact and its reader (claim C8) -/

/-- One sample record of the spec's data model. -/
structure SampleRecord where
  sample_id : Str
  project_id : Str
  forward_file : Str
  reverse_file : Str
deriving DecidableEq

/-- The full text `prepare`'s write loop produces for an ordered record
sequence: section marker line, column-header line, one row per record. -/
def manifestContent (records : List SampleRecord) : Str :=
  dataLineN ++ headerLineN ++
    (records.map (fun r => rowLineN r.sample_id r.project_id r.forward_file r.reverse_file)).flatten

/-- Modelled from the spec: the repository has no manifest reader (the
external upload collaborator consumes the file), so the round-trip
reader of the spec's format §6 is embedded from its words: a row is
read back by splitting on the comma-then-space separator into the four
fields `sample_id, project_id, forward_file, reverse_file`. -/
def parseRow (line : Str) : Option SampleRecord :=
  match splitOnSep commaSpace line with
  | [a, b, c, d] => some ⟨a, b, c, d⟩
  | _ => none

/-- Modelled from the spec: read a whole manifest back - split into
lines, require the literal section marker, the literal header and a
trailing newline, and read each remaining line as a row. -/
def parseManifest (content : Str) : Option (List SampleRecord) :=
  match splitOnSep ['\n'] content with
  | l1 :: l2 :: rest =>
    if l1 == dataLine && l2 == headerLine && rest.getLast? == some [] then
      rest.dropLast.mapM parseRow
    else none
  | _ => none

/-- A field that cannot collide with the manifest encoding: it contains
neither the `", "` separator nor a newline. -/
def cleanField (s : Str) : Bool :=
  !containsSub commaSpace s && !containsSub ['\n'] s

/-- A record all four fields of which are clean. -/
def cleanRecord (r : SampleRecord) : Bool :=
  cleanField r.sample_id && cleanField r.project_id &&
    cleanField r.forward_file && cleanField r.reverse_file

/-! ## Marker substitution observation (claim C5) -/

/-- `onlyMarkerDiff f g` holds when `g` has the same length as `f` and
differs from `f` at most at positions where `f` holds the read-1 digit
`'1'` and `g` the read-2 digit `'2'` - i.e. `g` differs from `f` only
in read-direction markers. -/
def onlyMarkerDiff : Str → Str → Bool
  | [], [] => true
  | c :: cs, d :: ds => (c == d || (c == '1' && d == '2')) && onlyMarkerDiff cs ds
  | _, _ => false

end Irida

namespace Irida

/-- Sanity: prefix before the first paired-end token of
`X_S1_R1_001.fastq.gz` is `X` (spec scenario 2). -/
example : splitHead peMatch ("X_S1_R1_001.fastq.gz".toList) = "X".toList := by decide

/-- Sanity: prefix before the first single-end token of `A.fastq.gz`
is `A` (spec scenario 1). -/
example : splitHead seMatch ("A.fastq.gz".toList) = "A".toList := by decide

example : splitHead peMatch ("A_S10_R1_001.fastq.gz".toList) = "A".toList := by decide

example : pyInt ("10".toList) = some 10 := by decide

example : pyInt ("A".toList) = none := by decide

example : replaceAll ("_R1_".toList) ("_R2_".toList) ("X_S1_R1_001.fastq.gz".toList)
    = "X_S1_R2_001.fastq.gz".toList := by decide

example : splitOnSep (", ".toList) ("a, b, c, ".toList)
    = ["a".toList, "b".toList, "c".toList, []] := by decide

/-! ## Claims C3 and C4: project resolution -/

/-- C3: for every project name that exactly (case-sensitively) equals
the name of some listed project, `create_project` returns the
identifier of the first matching project in listing order, issues zero
create calls, and surfaces the (non-fatal) duplicate warning - in
particular also when more than one listed project shares the name.
The right-hand side does not mention `create_resp` or the description,
so resolving the same name again against the unchanged listing is the
same function application and returns the same identifier, again with
no create call (idempotence). -/
theorem claim_C3 (listing : List ProjectRef) (create_resp today name : Str)
    (project_description : Option Str) (p : ProjectRef) (rest : List ProjectRef)
    (h : listing.filter (fun prj => prj.name == name) = p :: rest) :
    create_project listing create_resp today name project_description
      = (p.id, [Event.listProjects, Event.warn]) := by
  simp [create_project, h]

/-- Witness for C3: a listing in which two projects are both named
`demo`; resolution returns the first one's id `7` with no create. -/
theorem claim_C3_witness :
    create_project
        [⟨"7".toList, "demo".toList⟩, ⟨"9".toList, "demo".toList⟩]
        ("42".toList) ("2026-10-12".toList) ("demo".toList) none
      = ("7".toList, [Event.listProjects, Event.warn]) :=
  claim_C3 _ _ _ _ _ ⟨"7".toList, "demo".toList⟩ [⟨"9".toList, "demo".toList⟩]
    (by decide)

/-- C4: for every project name matching no listed project,
`create_project` issues exactly one create request, carrying the given
name and the given description - defaulting to the date-stamped
`"Created on ... by BOT"` string when none is supplied - and returns
the identifier carried in the create response. -/
theorem claim_C4 (listing : List ProjectRef) (create_resp today name : Str)
    (project_description : Option Str)
    (h : listing.filter (fun prj => prj.name == name) = []) :
    create_project listing create_resp today name project_description
      = (create_resp,
          [Event.listProjects,
           Event.createProject name (project_description.getD (defaultDesc today))]) := by
  simp [create_project, h]

/-- Witness for C4: no listed project is named `demo` (spec scenario
5); one create request is issued and its response id `42` returned. -/
theorem claim_C4_witness :
    create_project [⟨"7".toList, "other".toList⟩]
        ("42".toList) ("2026-10-12".toList) ("demo".toList) none
      = ("42".toList,
          [Event.listProjects,
           Event.createProject ("demo".toList)
             ("Created on 2026-10-12 by BOT".toList)]) :=
  claim_C4 _ _ _ _ none (by decide)

/-! ## Claim C5: the pairing rules -/

theorem onlyMarkerDiff_refl (a : Str) : onlyMarkerDiff a a = true := by
  induction a with
  | nil => rfl
  | cons c cs ih => simp [onlyMarkerDiff, ih]

theorem onlyMarkerDiff_append {a b c d : Str} (h1 : onlyMarkerDiff a b = true)
    (h2 : onlyMarkerDiff c d = true) :
    onlyMarkerDiff (a ++ c) (b ++ d) = true := by
  induction a generalizing b with
  | nil =>
    cases b with
    | nil => simpa using h2
    | cons y ys => simp [onlyMarkerDiff] at h1
  | cons x xs ih =>
    cases b with
    | nil => simp [onlyMarkerDiff] at h1
    | cons y ys =>
      simp only [onlyMarkerDiff, Bool.and_eq_true] at h1
      simp only [List.cons_append, onlyMarkerDiff, Bool.and_eq_true]
      exact ⟨h1.1, ih h1.2⟩

theorem replaceAllGo_onlyMarkerDiff (pat rep : Str) (hne : pat ≠ [])
    (hm : onlyMarkerDiff pat rep = true) :
    ∀ fuel s, onlyMarkerDiff s (replaceAllGo pat rep fuel s) = true := by
  intro fuel
  induction fuel with
  | zero =>
    intro s
    cases s with
    | nil => rfl
    | cons c rest => exact onlyMarkerDiff_refl _
  | succ n ih =>
    intro s
    cases s with
    | nil => rfl
    | cons c rest =>
      rw [replaceAllGo]
      cases hp : pat.isPrefixOf (c :: rest) with
      | false => simp [onlyMarkerDiff, ih rest]
      | true =>
        have hpre : pat <+: c :: rest := by
          exact (List.isPrefixOf_iff_prefix).mp hp
        obtain ⟨t, ht⟩ := hpre
        have hempty : pat.isEmpty = false := by
          cases pat with
          | nil => exact absurd rfl hne
          | cons q qs => rfl
        simp only [hempty, Bool.not_false, Bool.and_true, if_true]
        have hdrop : rest.drop (pat.length - 1) = t := by
          cases pat with
          | nil => exact absurd rfl hne
          | cons q qs =>
            cases ht
            simp [List.drop_left]
        rw [hdrop, ← ht]
        exact onlyMarkerDiff_append hm (ih t)

theorem replaceAll_onlyMarkerDiff (s : Str) :
    onlyMarkerDiff s (replaceAll r1_lane r2_lane s) = true :=
  replaceAllGo_onlyMarkerDiff r1_lane r2_lane (by decide) (by decide) s.length s

/-- C5: the pairing rules are evaluated in order.  A filename
containing the lane-numbered read-1 marker `_R1_` gets that marker
substituted (`_R1_` → `_R2_`), and the produced reverse filename
differs from the forward one only in the read-direction marker (same
length, equal everywhere except that the read-1 digit `1` becomes `2`);
otherwise, a filename containing the filtered suffix
`_R1.non_host.fastq.gz` gets the filtered read-2 variant substituted;
and every paired-end forward filename matching neither convention fails
with the `UnrecognizedPairingConvention` error
(`ValueError(f"Invalid file name: ...")`) carrying that filename. -/
theorem claim_C5 (fname : Str) :
    (containsSub r1_lane fname = true →
      reverseName true fname = .ok (replaceAll r1_lane r2_lane fname) ∧
        onlyMarkerDiff fname (replaceAll r1_lane r2_lane fname) = true) ∧
    (containsSub r1_lane fname = false → containsSub r1_filtered fname = true →
      reverseName true fname = .ok (replaceAll r1_filtered r2_filtered fname)) ∧
    (containsSub r1_lane fname = false → containsSub r1_filtered fname = false →
      reverseName true fname = .error (.invalidFileName fname)) := by
  refine ⟨fun h1 => ⟨?_, replaceAll_onlyMarkerDiff fname⟩,
    fun h1 h2 => ?_, fun h1 h2 => ?_⟩ <;>
    simp [reverseName, h1, *]

/-- Witness for C5: the lane-numbered filename of spec scenario 2 maps
to its reverse mate, and `weird.file.gz` (scenario 6) fails carrying
the offending filename. -/
theorem claim_C5_witness :
    reverseName true ("X_S1_R1_001.fastq.gz".toList)
        = .ok ("X_S1_R2_001.fastq.gz".toList) ∧
    onlyMarkerDiff ("X_S1_R1_001.fastq.gz".toList)
        ("X_S1_R2_001.fastq.gz".toList) = true ∧
    reverseName true ("weird.file.gz".toList)
        = .error (.invalidFileName ("weird.file.gz".toList)) := by
  have h1 := (claim_C5 ("X_S1_R1_001.fastq.gz".toList)).1 (by decide)
  have h3 := (claim_C5 ("weird.file.gz".toList)).2.2 (by decide) (by decide)
  exact ⟨by rw [h1.1]; decide, by decide, h3⟩

/-! ## Shared structure lemmas about `prepare` -/

theorem prepare_eq_resolve (listing : List ProjectRef)
    (create_resp today today_yymmdd : Str) (scan : Str → List Str)
    (path path_last pattern : Str) (pid name : Option Str) (pe sort : Bool) :
    prepare listing create_resp today today_yymmdd scan path path_last pattern
        pid name pe sort
      = resolve_events listing create_resp today today_yymmdd path path_last pid name
        ++ prepare_scan scan pattern
            (resolved_pid listing create_resp today today_yymmdd path path_last pid name)
            pe sort := by
  cases pid <;> rfl

theorem reverseName_pairable {f : Str} (h : pairable f = true) :
    reverseName true f = .ok (pairReverse f) := by
  unfold pairable at h
  unfold reverseName pairReverse
  cases h1 : containsSub r1_lane f with
  | true => simp
  | false => simp [h1] at h ⊢; simp [h]

theorem reverseName_unpairable {f : Str} (h : pairable f = false) :
    reverseName true f = .error (.invalidFileName f) := by
  unfold pairable at h
  simp only [Bool.or_eq_false_iff] at h
  simp [reverseName, h.1, h.2]

theorem zip_ids (g : Str → Str) (l : List Str) :
    (l.map g).zip l = l.map (fun f => (g f, f)) := by
  induction l with
  | nil => rfl
  | cons f fs ih => simp [ih]

theorem prepare_scan_pe_nosort (scan : Str → List Str) (pattern pid : Str) :
    prepare_scan scan pattern pid true false
      = Event.openFile :: Event.write dataLineN :: Event.write headerLineN ::
        buildRowEvents true pid
          ((scan pattern).map (fun f => (splitHead peMatch f, f))) := by
  simp [prepare_scan, sortNames, zip_ids]

theorem buildRowEvents_good_bad (pid : Str) (g : Str → Str)
    (good : List Str) (bad : Str) (rest : List Str)
    (hg : ∀ f ∈ good, pairable f = true) (hb : pairable bad = false) :
    buildRowEvents true pid ((good ++ bad :: rest).map (fun f => (g f, f)))
      = good.map (fun f => Event.write (rowLineN (g f) pid f (pairReverse f)))
        ++ [Event.raiseErr (.invalidFileName bad)] := by
  induction good with
  | nil => simp [buildRowEvents, reverseName_unpairable hb]
  | cons f fs ih =>
    simp only [List.cons_append, List.map_cons, buildRowEvents]
    rw [reverseName_pairable (hg f (by simp))]
    simpa using ih (fun x hx => hg x (by simp [hx]))

/-! ## Claim C1: abort on an unrecognized pairing convention -/

/-- Counterexample to C1 as stated: in paired-end mode with the single
scanned filename `weird.file.gz` (spec scenario 6), `prepare` does
raise the `UnrecognizedPairingConvention` error, but only after the
manifest file has been opened (mode `"w"`, so it is created) and both
header lines have been written to it - a partial manifest with the
header lines exists, contradicting "no manifest file (not even a
partial one with header lines ...) is written". -/
theorem claim_C1_counterexample :
    prepare [] ("9".toList) ("2026-10-12".toList) ("261012".toList)
        (fun _ => ["weird.file.gz".toList])
        ("run".toList) ("run".toList) ("*_R1_001.fastq.gz".toList)
        (some ("7".toList)) none true false
      = [Event.openFile, Event.write dataLineN, Event.write headerLineN,
         Event.raiseErr (.invalidFileName ("weird.file.gz".toList))] := by
  decide

/-- C1 (amended): in paired-end mode (without sort), if the scan yields
filenames `good ++ bad :: rest` where every filename of `good` matches
a pairing rule and `bad` matches none, manifest assembly aborts with
the `UnrecognizedPairingConvention` error carrying `bad` - but a
partial manifest is written: the file is opened and receives the
section marker, the header line and one row for every filename before
`bad`; nothing from `bad` onward is written. -/
theorem claim_C1 (listing : List ProjectRef)
    (create_resp today today_yymmdd : Str) (scan : Str → List Str)
    (path path_last pattern : Str) (pid name : Option Str)
    (good : List Str) (bad : Str) (rest : List Str)
    (hscan : scan pattern = good ++ bad :: rest)
    (hg : ∀ f ∈ good, pairable f = true) (hb : pairable bad = false) :
    prepare listing create_resp today today_yymmdd scan path path_last pattern
        pid name true false
      = resolve_events listing create_resp today today_yymmdd path path_last pid name
        ++ Event.openFile :: Event.write dataLineN :: Event.write headerLineN ::
          (good.map (fun f => Event.write (rowLineN (splitHead peMatch f)
              (resolved_pid listing create_resp today today_yymmdd path path_last pid name)
              f (pairReverse f)))
            ++ [Event.raiseErr (.invalidFileName bad)]) := by
  rw [prepare_eq_resolve, prepare_scan_pe_nosort, hscan,
    buildRowEvents_good_bad _ _ good bad rest hg hb]

/-- Witness for C1 (amended): one pairable filename precedes
`weird.file.gz`; its row is written, then the error is raised. -/
theorem claim_C1_witness :
    prepare [] ("9".toList) ("2026-10-12".toList) ("261012".toList)
        (fun _ => ["X_S1_R1_001.fastq.gz".toList, "weird.file.gz".toList])
        ("run".toList) ("run".toList) ("*_R1_001.fastq.gz".toList)
        (some ("7".toList)) none true false
      = [Event.openFile, Event.write dataLineN, Event.write headerLineN,
         Event.write ("X, 7, X_S1_R1_001.fastq.gz, X_S1_R2_001.fastq.gz\n".toList),
         Event.raiseErr (.invalidFileName ("weird.file.gz".toList))] := by
  have h := claim_C1 [] ("9".toList) ("2026-10-12".toList) ("261012".toList)
    (fun _ => ["X_S1_R1_001.fastq.gz".toList, "weird.file.gz".toList])
    ("run".toList) ("run".toList) ("*_R1_001.fastq.gz".toList)
    (some ("7".toList)) none
    ["X_S1_R1_001.fastq.gz".toList] ("weird.file.gz".toList) []
    rfl (by decide) (by decide)
  exact h.trans (by decide)

/-! ## Claim C2: sorting the `_S10_`/`_S2_` inputs -/

/-- Counterexample to C2 as stated: with sort requested in paired-end
mode on `["A_S10_R1_001.fastq.gz", "A_S2_R1_001.fastq.gz"]`, the
builder does not succeed: the whole trace is one raised error; in
particular nothing is written, so no output order exists. -/
theorem claim_C2_counterexample :
    prepare [] ("9".toList) ("2026-10-12".toList) ("261012".toList)
        (fun _ => ["A_S10_R1_001.fastq.gz".toList, "A_S2_R1_001.fastq.gz".toList])
        ("run".toList) ("run".toList) ("*_R1_001.fastq.gz".toList)
        (some ("7".toList)) none true true
      = [Event.raiseErr (.unsortable ("A".toList))] := by
  decide

/-- C2 (amended): when sort is requested in paired-end mode on
`["A_S10_R1_001.fastq.gz", "A_S2_R1_001.fastq.gz"]`, the builder
aborts instead of succeeding: the prefix of each filename before its
first stripped token is `A`, whose trailing `_`-delimited token `A` is
not numeric, so the key computation (`int("A")`) raises `ValueError`
and `prepare` raises before opening the manifest file. -/
theorem claim_C2 :
    sortToken peMatch ("A_S10_R1_001.fastq.gz".toList) = "A".toList ∧
    sortKey peMatch ("A_S10_R1_001.fastq.gz".toList) = none ∧
    sortNames peMatch true
        ["A_S10_R1_001.fastq.gz".toList, "A_S2_R1_001.fastq.gz".toList]
      = .error (.unsortable ("A".toList)) ∧
    prepare [] ("9".toList) ("2026-10-12".toList) ("261012".toList)
        (fun _ => ["A_S10_R1_001.fastq.gz".toList, "A_S2_R1_001.fastq.gz".toList])
        ("run".toList) ("run".toList) ("*_R1_001.fastq.gz".toList)
        (some ("7".toList)) none true true
      = [Event.raiseErr (.unsortable ("A".toList))] := by
  refine ⟨by decide, by decide, by decide, by decide⟩

/-! ## More shared trace lemmas -/

theorem create_project_events_cases (listing : List ProjectRef) (cr t nm : Str)
    (d : Option Str) :
    (create_project listing cr t nm d).2
        = [Event.listProjects, Event.createProject nm (d.getD (defaultDesc t))] ∨
      (create_project listing cr t nm d).2 = [Event.listProjects, Event.warn] := by
  unfold create_project
  cases (listing.filter fun prj => prj.name == nm).map ProjectRef.id <;> simp

theorem resolve_events_cases (listing : List ProjectRef)
    (create_resp today today_yymmdd path path_last : Str) (pid name : Option Str) :
    resolve_events listing create_resp today today_yymmdd path path_last pid name = [] ∨
    resolve_events listing create_resp today today_yymmdd path path_last pid name
        = [Event.listProjects,
           Event.createProject (name.getD (derive_project_name path path_last today_yymmdd))
             (defaultDesc today)] ∨
    resolve_events listing create_resp today today_yymmdd path path_last pid name
        = [Event.listProjects, Event.warn] := by
  unfold resolve_events
  cases pid with
  | some p => exact Or.inl rfl
  | none =>
    rcases create_project_events_cases listing create_resp today
      (name.getD (derive_project_name path path_last today_yymmdd)) none with h | h
    · exact Or.inr (Or.inl h)
    · exact Or.inr (Or.inr h)

theorem resolve_events_no_write (listing : List ProjectRef)
    (create_resp today today_yymmdd path path_last : Str) (pid name : Option Str) :
    ∀ e ∈ resolve_events listing create_resp today today_yymmdd path path_last pid name,
      isWrite e = false := by
  rcases resolve_events_cases listing create_resp today today_yymmdd path path_last
    pid name with h | h | h <;> rw [h] <;> simp [isWrite]

theorem buildRowEvents_no_remote (pe : Bool) (pid : Str) (pairs : List (Str × Str)) :
    ∀ e ∈ buildRowEvents pe pid pairs, isRemote e = false := by
  induction pairs with
  | nil => simp [buildRowEvents]
  | cons p rest ih =>
    obtain ⟨sid, fname⟩ := p
    simp only [buildRowEvents]
    cases reverseName pe fname with
    | error err => simp [isRemote]
    | ok rev =>
      intro e he
      rcases List.mem_cons.mp he with h | h
      · rw [h]; rfl
      · exact ih e h

theorem prepare_scan_no_remote (scan : Str → List Str) (pattern pid : Str)
    (pe sort : Bool) :
    ∀ e ∈ prepare_scan scan pattern pid pe sort, isRemote e = false := by
  simp only [prepare_scan]
  cases sortNames (if pe = true then peMatch else seMatch) sort
      (scan (if pe = true then pattern else "*.fastq.gz".toList)) with
  | error err => simp [isRemote]
  | ok out =>
    intro e he
    rcases List.mem_cons.mp he with h | h
    · rw [h]; rfl
    rcases List.mem_cons.mp h with h | h
    · rw [h]; rfl
    rcases List.mem_cons.mp h with h | h
    · rw [h]; rfl
    · exact buildRowEvents_no_remote _ _ _ e h

theorem buildRowEvents_write_shape (pe : Bool) (pid : Str) (pairs : List (Str × Str)) :
    ∀ l, Event.write l ∈ buildRowEvents pe pid pairs →
      ∃ p ∈ pairs, ∃ rev, l = rowLineN p.1 pid p.2 rev := by
  induction pairs with
  | nil => simp [buildRowEvents]
  | cons p rest ih =>
    obtain ⟨sid, fname⟩ := p
    simp only [buildRowEvents]
    cases reverseName pe fname with
    | error err => simp
    | ok rev =>
      intro l hl
      rcases List.mem_cons.mp hl with h | h
      · injection h with h2
        exact ⟨(sid, fname), by simp, rev, h2⟩
      · obtain ⟨q, hq, rev', hrev'⟩ := ih l h
        exact ⟨q, by simp [hq], rev', hrev'⟩

theorem prepare_scan_write_shape (scan : Str → List Str) (pattern pid : Str)
    (pe sort : Bool) :
    ∀ l, Event.write l ∈ prepare_scan scan pattern pid pe sort →
      l = dataLineN ∨ l = headerLineN ∨ ∃ sid f rev, l = rowLineN sid pid f rev := by
  simp only [prepare_scan]
  cases sortNames (if pe = true then peMatch else seMatch) sort
      (scan (if pe = true then pattern else "*.fastq.gz".toList)) with
  | error err => simp
  | ok out =>
    intro l hl
    rcases List.mem_cons.mp hl with h | h
    · exact absurd h (by simp)
    rcases List.mem_cons.mp h with h | h
    · exact Or.inl (by injection h)
    rcases List.mem_cons.mp h with h | h
    · exact Or.inr (Or.inl (by injection h))
    · rw [zip_ids] at h
      obtain ⟨q, hq, rev, hrev⟩ := buildRowEvents_write_shape _ _ _ l h
      obtain ⟨f, _, hf⟩ := List.mem_map.mp hq
      exact Or.inr (Or.inr ⟨q.1, q.2, rev, hrev⟩)

theorem prepare_write_shape (listing : List ProjectRef)
    (create_resp today today_yymmdd : Str) (scan : Str → List Str)
    (path path_last pattern : Str) (pid name : Option Str) (pe sort : Bool) :
    ∀ l, Event.write l ∈ prepare listing create_resp today today_yymmdd scan
        path path_last pattern pid name pe sort →
      l = dataLineN ∨ l = headerLineN ∨
        ∃ sid f rev, l = rowLineN sid
          (resolved_pid listing create_resp today today_yymmdd path path_last pid name)
          f rev := by
  intro l hl
  rw [prepare_eq_resolve] at hl
  rcases List.mem_append.mp hl with h | h
  · have := resolve_events_no_write listing create_resp today today_yymmdd
      path path_last pid name _ h
    simp [isWrite] at this
  · exact prepare_scan_write_shape _ _ _ _ _ l h

theorem listCalls_eq_zero (tr : List Event) (h : ∀ e ∈ tr, isRemote e = false) :
    listCalls tr = 0 := by
  unfold listCalls
  rw [List.length_eq_zero]
  rw [List.filter_eq_nil]
  intro e he
  have := h e he
  cases e <;> simp_all [isRemote]

theorem createCalls_eq_nil (tr : List Event) (h : ∀ e ∈ tr, isRemote e = false) :
    createCalls tr = [] := by
  unfold createCalls
  rw [List.filterMap_eq_nil]
  intro e he
  have := h e he
  cases e <;> simp_all [isRemote]

theorem listCalls_append (a b : List Event) :
    listCalls (a ++ b) = listCalls a + listCalls b := by
  simp [listCalls, List.filter_append]

theorem createCalls_append (a b : List Event) :
    createCalls (a ++ b) = createCalls a ++ createCalls b := by
  simp [createCalls, List.filterMap_append]

theorem prepare_listCalls (listing : List ProjectRef)
    (create_resp today today_yymmdd : Str) (scan : Str → List Str)
    (path path_last pattern : Str) (pid name : Option Str) (pe sort : Bool) :
    listCalls (prepare listing create_resp today today_yymmdd scan
        path path_last pattern pid name pe sort)
      = (match pid with | some _ => 0 | none => 1) := by
  rw [prepare_eq_resolve, listCalls_append,
    listCalls_eq_zero _ (prepare_scan_no_remote scan pattern _ pe sort)]
  cases pid with
  | some p => rfl
  | none =>
    simp only [resolve_events]
    rcases create_project_events_cases listing create_resp today
      (name.getD (derive_project_name path path_last today_yymmdd)) none with h | h <;>
      rw [h] <;> rfl

theorem prepare_createCalls_shape (listing : List ProjectRef)
    (create_resp today today_yymmdd : Str) (scan : Str → List Str)
    (path path_last pattern : Str) (pid name : Option Str) (pe sort : Bool) :
    ∀ c ∈ createCalls (prepare listing create_resp today today_yymmdd scan
        path path_last pattern pid name pe sort),
      pid = none ∧
        c = (name.getD (derive_project_name path path_last today_yymmdd),
             defaultDesc today) := by
  intro c hc
  rw [prepare_eq_resolve, createCalls_append,
    createCalls_eq_nil _ (prepare_scan_no_remote scan pattern _ pe sort),
    List.append_nil] at hc
  cases pid with
  | some p => simp [resolve_events, createCalls] at hc
  | none =>
    refine ⟨rfl, ?_⟩
    rcases resolve_events_cases listing create_resp today today_yymmdd path path_last
      none name with h | h | h <;> rw [h] at hc <;> simp [createCalls] at hc
    · exact hc

theorem any_isRemote_false (b : List Event) (hb : ∀ e ∈ b, isRemote e = false) :
    b.any isRemote = false := by
  induction b with
  | nil => rfl
  | cons e rest ih =>
    simp only [List.any_cons, hb e (by simp), Bool.false_or]
    exact ih (fun x hx => hb x (by simp [hx]))

theorem remoteAfterWrite_no_remote (b : List Event)
    (hb : ∀ e ∈ b, isRemote e = false) : remoteAfterWrite b = false := by
  induction b with
  | nil => rfl
  | cons e rest ih =>
    unfold remoteAfterWrite
    rw [any_isRemote_false rest (fun x hx => hb x (by simp [hx])),
      ih (fun x hx => hb x (by simp [hx]))]
    simp

theorem remoteAfterWrite_append (a b : List Event)
    (ha : ∀ e ∈ a, isWrite e = false) (hb : ∀ e ∈ b, isRemote e = false) :
    remoteAfterWrite (a ++ b) = false := by
  induction a with
  | nil => simpa using remoteAfterWrite_no_remote b hb
  | cons e a' ih =>
    simp only [List.cons_append]
    unfold remoteAfterWrite
    rw [ha e (by simp), ih (fun x hx => ha x (by simp [hx]))]
    simp

theorem prepare_remoteAfterWrite (listing : List ProjectRef)
    (create_resp today today_yymmdd : Str) (scan : Str → List Str)
    (path path_last pattern : Str) (pid name : Option Str) (pe sort : Bool) :
    remoteAfterWrite (prepare listing create_resp today today_yymmdd scan
        path path_last pattern pid name pe sort) = false := by
  rw [prepare_eq_resolve]
  exact remoteAfterWrite_append _ _
    (resolve_events_no_write listing create_resp today today_yymmdd path path_last
      pid name)
    (prepare_scan_no_remote scan pattern _ pe sort)

/-! ## Key computation lemmas (sorting) -/

theorem computeKeys_ok_eq {rm : Str → Bool} :
    ∀ {names ps}, computeKeys rm names = .ok ps →
      ps = names.map (fun f => (f, keyValD rm f)) := by
  intro names
  induction names with
  | nil =>
    intro ps h
    injection h with h2
    rw [← h2]
    rfl
  | cons s rest ih =>
    intro ps h
    unfold computeKeys at h
    cases hk : sortKey rm s with
    | none => rw [hk] at h; exact absurd h (by simp)
    | some k =>
      rw [hk] at h
      cases hr : computeKeys rm rest with
      | error e => rw [hr] at h; exact absurd h (by simp [Except.map])
      | ok qs =>
        rw [hr] at h
        simp only [Except.map] at h
        injection h with h2
        rw [← h2, List.map_cons, ← ih hr]
        have : keyValD rm s = k := by simp [keyValD, hk]
        rw [this]

theorem computeKeys_all_some {rm : Str → Bool} :
    ∀ {names : List Str}, (∀ f ∈ names, (sortKey rm f).isSome = true) →
      computeKeys rm names = .ok (names.map (fun f => (f, keyValD rm f))) := by
  intro names
  induction names with
  | nil => intro _; rfl
  | cons s rest ih =>
    intro h
    unfold computeKeys
    cases hk : sortKey rm s with
    | none => exact absurd (h s (by simp)) (by simp [hk])
    | some k =>
      rw [ih (fun f hf => h f (by simp [hf]))]
      simp [Except.map, keyValD, hk]

theorem sortNames_mem {rm : Str → Bool} {sort : Bool} {names out : List Str}
    (h : sortNames rm sort names = .ok out) : ∀ f ∈ out, f ∈ names := by
  unfold sortNames at h
  cases sort with
  | false =>
    simp only [Bool.false_eq_true, if_false] at h
    injection h with h2
    rw [← h2]
    exact fun f hf => hf
  | true =>
    simp only [if_true] at h
    cases hk : computeKeys rm names with
    | error e => rw [hk] at h; exact absurd h (by simp [Except.map])
    | ok ps =>
      rw [hk] at h
      simp only [Except.map] at h
      injection h with h2
      rw [← h2]
      intro f hf
      obtain ⟨p, hp, hpf⟩ := List.mem_map.mp hf
      have hp2 : p ∈ ps := (List.Perm.mem_iff (List.perm_insertionSort keyLE ps)).mp hp
      rw [computeKeys_ok_eq hk] at hp2
      obtain ⟨g, hg, hgp⟩ := List.mem_map.mp hp2
      rw [← hpf, ← hgp]
      exact hg

/-! ## Claim C9: single-end mode -/

theorem buildRowEvents_se (pid : Str) (pairs : List (Str × Str)) :
    buildRowEvents false pid pairs
      = pairs.map (fun p => Event.write (rowLineN p.1 pid p.2 [])) := by
  induction pairs with
  | nil => rfl
  | cons p rest ih =>
    obtain ⟨sid, fname⟩ := p
    simp [buildRowEvents, reverseName, ih]

theorem prepare_scan_se (scan : Str → List Str) (pattern pid : Str) (sort : Bool) :
    prepare_scan scan pattern pid false sort
      = match sortNames seMatch sort (scan ("*.fastq.gz".toList)) with
        | .error e => [Event.raiseErr e]
        | .ok out =>
            Event.openFile :: Event.write dataLineN :: Event.write headerLineN ::
              buildRowEvents false pid (out.map (fun f => (splitHead seMatch f, f))) := by
  simp only [prepare_scan, Bool.false_eq_true, if_false]
  cases sortNames seMatch sort (scan ("*.fastq.gz".toList)) with
  | error e => rfl
  | ok out =>
    show Event.openFile :: Event.write dataLineN :: Event.write headerLineN ::
        buildRowEvents false pid ((out.map (splitHead seMatch)).zip out)
      = Event.openFile :: Event.write dataLineN :: Event.write headerLineN ::
        buildRowEvents false pid (out.map (fun f => (splitHead seMatch f, f)))
    rw [zip_ids]

/-- C9: in single-end mode the scan glob is overridden to the broad
`*.fastq.gz` pattern - the whole behaviour of `prepare` is independent
of the caller-supplied pattern - and every written manifest row is
built from a filename `f` yielded by the scan for `*.fastq.gz`, with
sample id the prefix of `f` before the first `.fastq`/`.fq.` match and
an empty reverse-file field. -/
theorem claim_C9 (listing : List ProjectRef) (create_resp today today_yymmdd : Str)
    (scan : Str → List Str) (path path_last pat1 pat2 : Str)
    (pid name : Option Str) (sort : Bool) :
    prepare listing create_resp today today_yymmdd scan path path_last pat1
        pid name false sort
      = prepare listing create_resp today today_yymmdd scan path path_last pat2
          pid name false sort
    ∧ ∀ l, Event.write l ∈ prepare listing create_resp today today_yymmdd scan
          path path_last pat1 pid name false sort →
        l = dataLineN ∨ l = headerLineN ∨
        ∃ f, f ∈ scan ("*.fastq.gz".toList) ∧
          l = rowLineN (splitHead seMatch f)
            (resolved_pid listing create_resp today today_yymmdd path path_last pid name)
            f [] := by
  constructor
  · rw [prepare_eq_resolve, prepare_eq_resolve, prepare_scan_se, prepare_scan_se]
  · intro l hl
    rw [prepare_eq_resolve] at hl
    rcases List.mem_append.mp hl with h | h
    · have := resolve_events_no_write listing create_resp today today_yymmdd
        path path_last pid name _ h
      simp [isWrite] at this
    · rw [prepare_scan_se] at h
      cases hs : sortNames seMatch sort (scan ("*.fastq.gz".toList)) with
      | error e => rw [hs] at h; simp at h
      | ok out =>
        rw [hs] at h
        rcases List.mem_cons.mp h with h2 | h2
        · exact absurd h2 (by simp)
        rcases List.mem_cons.mp h2 with h3 | h3
        · exact Or.inl (by injection h3)
        rcases List.mem_cons.mp h3 with h4 | h4
        · exact Or.inr (Or.inl (by injection h4))
        · rw [buildRowEvents_se] at h4
          obtain ⟨p, hp, hpl⟩ := List.mem_map.mp h4
          obtain ⟨f, hf, hfp⟩ := List.mem_map.mp hp
          injection hpl with h5
          refine Or.inr (Or.inr ⟨f, sortNames_mem hs f hf, ?_⟩)
          rw [← h5, ← hfp]

/-- Witness for C9: with the scan for `*.fastq.gz` yielding
`A.fastq.gz` and `B.fastq.gz` under a caller pattern for forward reads
only, the row written for `A.fastq.gz` carries sample id `A` and an
empty reverse field (spec scenario 1). -/
theorem claim_C9_witness :
    ("A, 7, A.fastq.gz, \n".toList = dataLineN ∨
     "A, 7, A.fastq.gz, \n".toList = headerLineN ∨
     ∃ f, f ∈ ["A.fastq.gz".toList, "B.fastq.gz".toList] ∧
       "A, 7, A.fastq.gz, \n".toList
         = rowLineN (splitHead seMatch f) ("7".toList) f []) := by
  have h := (claim_C9 [] ("9".toList) ("2026-10-12".toList) ("261012".toList)
    (fun p => if p == "*.fastq.gz".toList
      then ["A.fastq.gz".toList, "B.fastq.gz".toList] else [])
    ("run".toList) ("run".toList) ("*_R1_001.fastq.gz".toList)
    ("*.fastq.gz".toList) (some ("7".toList)) none false).2
    ("A, 7, A.fastq.gz, \n".toList) (by decide)
  simpa using h

/-! ## Claim C10: supplied project id bypasses resolution -/

/-- C10: when the caller supplies a project identifier, resolution is
bypassed entirely - no remote listing fetch, no create request, so the
remote project namespace is untouched - and every written manifest row
carries the supplied identifier verbatim in its project field.  When no
identifier is supplied the listing is fetched (exactly once), and any
create request carries the `--name` argument if given, else the project
name derived from the directory name and a date token, with the
date-stamped default description. -/
theorem claim_C10 (listing : List ProjectRef) (create_resp today today_yymmdd : Str)
    (scan : Str → List Str) (path path_last pattern : Str) (name : Option Str)
    (pe sort : Bool) :
    (∀ p : Str,
      listCalls (prepare listing create_resp today today_yymmdd scan path path_last
          pattern (some p) name pe sort) = 0 ∧
      createCalls (prepare listing create_resp today today_yymmdd scan path path_last
          pattern (some p) name pe sort) = [] ∧
      ∀ l, Event.write l ∈ prepare listing create_resp today today_yymmdd scan
          path path_last pattern (some p) name pe sort →
        l = dataLineN ∨ l = headerLineN ∨ ∃ sid f rev, l = rowLineN sid p f rev) ∧
    listCalls (prepare listing create_resp today today_yymmdd scan path path_last
        pattern none name pe sort) = 1 ∧
    ∀ c ∈ createCalls (prepare listing create_resp today today_yymmdd scan
        path path_last pattern none name pe sort),
      c = (name.getD (derive_project_name path path_last today_yymmdd),
           defaultDesc today) := by
  refine ⟨fun p => ⟨?_, ?_, ?_⟩, ?_, ?_⟩
  · exact prepare_listCalls listing create_resp today today_yymmdd scan
      path path_last pattern (some p) name pe sort
  · rw [prepare_eq_resolve, createCalls_append,
      createCalls_eq_nil _ (prepare_scan_no_remote scan pattern _ pe sort),
      List.append_nil]
    rfl
  · exact prepare_write_shape listing create_resp today today_yymmdd scan
      path path_last pattern (some p) name pe sort
  · exact prepare_listCalls listing create_resp today today_yymmdd scan
      path path_last pattern none name pe sort
  · intro c hc
    exact (prepare_createCalls_shape listing create_resp today today_yymmdd scan
      path path_last pattern none name pe sort c hc).2

/-- Witness for C10: with `--pid 7` supplied, the trace fetches no
listing, issues no create, and the one row carries `7`; without a pid
and without a name, the only possible create call carries the
`QIB-...` derived name and the default description. -/
theorem claim_C10_witness :
    listCalls (prepare [] ("9".toList) ("2026-10-12".toList) ("261012".toList)
        (fun _ => ["X_S1_R1_001.fastq.gz".toList])
        ("run".toList) ("run".toList) ("*_R1_001.fastq.gz".toList)
        (some ("7".toList)) none true false) = 0 ∧
    createCalls (prepare [] ("9".toList) ("2026-10-12".toList) ("261012".toList)
        (fun _ => ["X_S1_R1_001.fastq.gz".toList])
        ("run".toList) ("run".toList) ("*_R1_001.fastq.gz".toList)
        (some ("7".toList)) none true false) = [] ∧
    ("X, 7, X_S1_R1_001.fastq.gz, X_S1_R2_001.fastq.gz\n".toList = dataLineN ∨
     "X, 7, X_S1_R1_001.fastq.gz, X_S1_R2_001.fastq.gz\n".toList = headerLineN ∨
     ∃ sid f rev, "X, 7, X_S1_R1_001.fastq.gz, X_S1_R2_001.fastq.gz\n".toList
       = rowLineN sid ("7".toList) f rev) := by
  have h := (claim_C10 [] ("9".toList) ("2026-10-12".toList) ("261012".toList)
    (fun _ => ["X_S1_R1_001.fastq.gz".toList])
    ("run".toList) ("run".toList) ("*_R1_001.fastq.gz".toList) none true false).1
    ("7".toList)
  exact ⟨h.1, h.2.1, h.2.2 _ (by decide)⟩

/-! ## Claim C7: the project id is resolved once, up front, uniformly -/

/-- C7: within one `prepare` invocation the remote listing is fetched
exactly once when resolution happens (and never when a pid is
supplied), at most one create request is issued, no remote
resolution event occurs after any file write (resolution completes
before any record is written), and every written manifest row carries
the one resolved project id. -/
theorem claim_C7 (listing : List ProjectRef) (create_resp today today_yymmdd : Str)
    (scan : Str → List Str) (path path_last pattern : Str) (pid name : Option Str)
    (pe sort : Bool) :
    listCalls (prepare listing create_resp today today_yymmdd scan path path_last
        pattern pid name pe sort)
      = (match pid with | some _ => 0 | none => 1) ∧
    (createCalls (prepare listing create_resp today today_yymmdd scan path path_last
        pattern pid name pe sort)).length ≤ 1 ∧
    remoteAfterWrite (prepare listing create_resp today today_yymmdd scan
        path path_last pattern pid name pe sort) = false ∧
    ∀ l, Event.write l ∈ prepare listing create_resp today today_yymmdd scan
        path path_last pattern pid name pe sort →
      l = dataLineN ∨ l = headerLineN ∨
      ∃ sid f rev, l = rowLineN sid
        (resolved_pid listing create_resp today today_yymmdd path path_last pid name)
        f rev := by
  refine ⟨prepare_listCalls listing create_resp today today_yymmdd scan
      path path_last pattern pid name pe sort, ?_,
    prepare_remoteAfterWrite listing create_resp today today_yymmdd scan
      path path_last pattern pid name pe sort,
    prepare_write_shape listing create_resp today today_yymmdd scan
      path path_last pattern pid name pe sort⟩
  rw [prepare_eq_resolve, createCalls_append,
    createCalls_eq_nil _ (prepare_scan_no_remote scan pattern _ pe sort),
    List.append_nil]
  rcases resolve_events_cases listing create_resp today today_yymmdd path path_last
    pid name with h | h | h <;> rw [h] <;> simp [createCalls]

/-- Witness for C7: resolving `demo` against a listing that contains it
fetches the listing once, and the one written row carries the resolved
id `7`. -/
theorem claim_C7_witness :
    listCalls (prepare [⟨"7".toList, "demo".toList⟩] ("9".toList)
        ("2026-10-12".toList) ("261012".toList)
        (fun _ => ["X_S1_R1_001.fastq.gz".toList])
        ("run".toList) ("run".toList) ("*_R1_001.fastq.gz".toList)
        none (some ("demo".toList)) true false) = 1 ∧
    ("X, 7, X_S1_R1_001.fastq.gz, X_S1_R2_001.fastq.gz\n".toList = dataLineN ∨
     "X, 7, X_S1_R1_001.fastq.gz, X_S1_R2_001.fastq.gz\n".toList = headerLineN ∨
     ∃ sid f rev, "X, 7, X_S1_R1_001.fastq.gz, X_S1_R2_001.fastq.gz\n".toList
       = rowLineN sid
          (resolved_pid [⟨"7".toList, "demo".toList⟩] ("9".toList)
            ("2026-10-12".toList) ("261012".toList)
            ("run".toList) ("run".toList) none (some ("demo".toList)))
          f rev) := by
  have h := claim_C7 [⟨"7".toList, "demo".toList⟩] ("9".toList)
    ("2026-10-12".toList) ("261012".toList)
    (fun _ => ["X_S1_R1_001.fastq.gz".toList])
    ("run".toList) ("run".toList) ("*_R1_001.fastq.gz".toList)
    none (some ("demo".toList)) true false
  exact ⟨h.1, h.2.2.2 _ (by decide)⟩

/-! ## Claim C6: sorting is a total order and idempotent -/

theorem computeKeys_ok_some {rm : Str → Bool} :
    ∀ {names ps}, computeKeys rm names = .ok ps →
      ∀ f ∈ names, (sortKey rm f).isSome = true := by
  intro names
  induction names with
  | nil => intro ps _ f hf; simp at hf
  | cons s rest ih =>
    intro ps h f hf
    unfold computeKeys at h
    cases hk : sortKey rm s with
    | none => rw [hk] at h; exact absurd h (by simp)
    | some k =>
      rw [hk] at h
      cases hr : computeKeys rm rest with
      | error e => rw [hr] at h; exact absurd h (by simp [Except.map])
      | ok qs =>
        rcases List.mem_cons.mp hf with h2 | h2
        · rw [h2, hk]; rfl
        · exact ih hr f h2

theorem map_id_of_mem {α : Type} (f : α → α) :
    ∀ l : List α, (∀ x ∈ l, f x = x) → l.map f = l := by
  intro l
  induction l with
  | nil => intro _; rfl
  | cons x xs ih =>
    intro h
    simp only [List.map_cons, h x (by simp),
      ih (fun y hy => h y (by simp [hy]))]

/-- C6: for a batch of filenames whose prefixes before the first
stripped token all end in an `_`-delimited numeric segment - i.e. a
batch the sort step accepts - sorting is a total order on keys: any two
positions of the output whose keys satisfy `m < n` appear in that
order, with the `m` filename strictly before the `n` filename; the
output is a permutation of the input; and sorting an already-sorted
sequence is a no-op (the sort step returns it unchanged). -/
theorem claim_C6 (rm : Str → Bool) (names out : List Str)
    (h : sortNames rm true names = .ok out) :
    (∀ i j : Fin out.length,
      keyValD rm (out.get i) < keyValD rm (out.get j) → (i : Nat) < (j : Nat)) ∧
    List.Perm out names ∧
    sortNames rm true out = .ok out := by
  have hsn := h
  unfold sortNames at hsn
  simp only [if_true] at hsn
  rcases hk : computeKeys rm names with e | ps
  · rw [hk] at hsn; exact absurd hsn (by simp [Except.map])
  rw [hk] at hsn
  simp only [Except.map] at hsn
  injection hsn with hout
  have hps : ps = names.map (fun f => (f, keyValD rm f)) := computeKeys_ok_eq hk
  have hperm : List.Perm (List.insertionSort keyLE ps) ps :=
    List.perm_insertionSort keyLE ps
  have hsorted : List.Sorted keyLE (List.insertionSort keyLE ps) :=
    List.sorted_insertionSort keyLE ps
  have hpairform : ∀ p ∈ List.insertionSort keyLE ps, p.2 = keyValD rm p.1 := by
    intro p hp
    have hp2 : p ∈ ps := hperm.mem_iff.mp hp
    rw [hps] at hp2
    obtain ⟨f, _, hf⟩ := List.mem_map.mp hp2
    rw [← hf]
  have hperm_out : List.Perm out names := by
    rw [← hout]
    have h1 : List.Perm ((List.insertionSort keyLE ps).map Prod.fst) (ps.map Prod.fst) :=
      hperm.map Prod.fst
    have h2 : ps.map Prod.fst = names := by
      rw [hps, List.map_map]
      exact map_id_of_mem _ names (fun x _ => rfl)
    rw [h2] at h1
    exact h1
  refine ⟨?_, hperm_out, ?_⟩
  · -- sortedness of keys along the output
    have hpw : List.Pairwise (fun a b => keyValD rm a ≤ keyValD rm b) out := by
      rw [← hout]
      rw [List.pairwise_map]
      refine hsorted.imp_of_mem ?_
      intro a b ha hb hab
      rw [← hpairform a ha, ← hpairform b hb]
      exact hab
    have hget := List.pairwise_iff_get.mp hpw
    intro i j hij
    rcases Nat.lt_trichotomy (i : Nat) (j : Nat) with hlt | heq | hgt
    · exact hlt
    · exfalso
      have : i = j := Fin.ext heq
      rw [this] at hij
      exact lt_irrefl _ hij
    · exfalso
      have := hget j i hgt
      exact absurd hij (not_lt.mpr this)
  · -- idempotence
    have hsome_out : ∀ f ∈ out, (sortKey rm f).isSome = true := by
      intro f hf
      exact computeKeys_ok_some hk f (sortNames_mem h f hf)
    have hck := computeKeys_all_some hsome_out
    have hrepair : out.map (fun f => (f, keyValD rm f)) = List.insertionSort keyLE ps := by
      rw [← hout, List.map_map]
      exact map_id_of_mem _ _ (fun p hp => by
        have := hpairform p hp
        cases p
        simp only [Function.comp_apply]
        rw [← this])
    unfold sortNames
    simp only [if_true]
    rw [hck, hrepair]
    simp only [Except.map]
    rw [(hsorted.insertionSort_eq : List.insertionSort keyLE _ = _), hout]

/-- Witness for C6: the numeric-prefix variants of spec scenario 3 sort
with key 2 strictly before key 10, and re-sorting the sorted output is
a no-op. -/
theorem claim_C6_witness :
    sortNames peMatch true
        ["A_10_R1_001.fastq.gz".toList, "A_2_R1_001.fastq.gz".toList]
      = .ok ["A_2_R1_001.fastq.gz".toList, "A_10_R1_001.fastq.gz".toList] ∧
    sortNames peMatch true
        ["A_2_R1_001.fastq.gz".toList, "A_10_R1_001.fastq.gz".toList]
      = .ok ["A_2_R1_001.fastq.gz".toList, "A_10_R1_001.fastq.gz".toList] := by
  have h := claim_C6 peMatch
    ["A_10_R1_001.fastq.gz".toList, "A_2_R1_001.fastq.gz".toList]
    ["A_2_R1_001.fastq.gz".toList, "A_10_R1_001.fastq.gz".toList] (by decide)
  exact ⟨by decide, h.2.2⟩

/-! ## Claim C8: manifest format and round trip -/

theorem splitOnSepGo_fuel (sep : Str) :
    ∀ fuel1 fuel2 : Nat, ∀ s : Str, s.length ≤ fuel1 → s.length ≤ fuel2 →
      splitOnSepGo sep fuel1 s = splitOnSepGo sep fuel2 s := by
  intro fuel1
  induction fuel1 with
  | zero =>
    intro fuel2 s h1 _
    cases s with
    | nil => cases fuel2 <;> rfl
    | cons c rest => simp at h1
  | succ n ih =>
    intro fuel2 s h1 h2
    cases s with
    | nil => cases fuel2 <;> rfl
    | cons c rest =>
      cases fuel2 with
      | zero => simp at h2
      | succ m =>
        have hn : rest.length ≤ n := by simp at h1; omega
        have hm : rest.length ≤ m := by simp at h2; omega
        have hd : (rest.drop (sep.length - 1)).length ≤ rest.length := by
          simp [List.length_drop]
        simp only [splitOnSepGo]
        by_cases hp : (sep.isPrefixOf (c :: rest) && !sep.isEmpty) = true
        · rw [if_pos hp, if_pos hp,
            ih m (rest.drop (sep.length - 1)) (le_trans hd hn) (le_trans hd hm)]
        · rw [if_neg hp, if_neg hp, ih m rest hn hm]

theorem splitOnSep_cons (sep : Str) (c : Char) (rest : Str) :
    splitOnSep sep (c :: rest) =
      if sep.isPrefixOf (c :: rest) && !sep.isEmpty then
        [] :: splitOnSep sep (rest.drop (sep.length - 1))
      else
        match splitOnSep sep rest with
        | [] => [[c]]
        | h :: tl => (c :: h) :: tl := by
  show splitOnSepGo sep (c :: rest).length (c :: rest) = _
  have hd : (rest.drop (sep.length - 1)).length ≤ rest.length := by
    simp [List.length_drop]
  simp only [List.length_cons, splitOnSepGo]
  by_cases hp : (sep.isPrefixOf (c :: rest) && !sep.isEmpty) = true
  · rw [if_pos hp, if_pos hp]
    rw [splitOnSepGo_fuel sep rest.length (rest.drop (sep.length - 1)).length
      (rest.drop (sep.length - 1)) hd le_rfl]
    rfl
  · rw [if_neg hp, if_neg hp]
    rfl

theorem splitOnSep_no_occurrence (sep : Str) :
    ∀ a : Str, containsSub sep a = false → splitOnSep sep a = [a] := by
  intro a
  induction a with
  | nil => intro _; rfl
  | cons c a' ih =>
    intro h
    unfold containsSub at h
    simp only [Bool.or_eq_false_iff] at h
    rw [splitOnSep_cons, h.1]
    simp only [Bool.false_and, Bool.false_eq_true, if_false]
    rw [ih h.2]

theorem splitOnSep_nl_append (t : Str) :
    ∀ a : Str, containsSub ['\n'] a = false →
      splitOnSep ['\n'] (a ++ '\n' :: t) = a :: splitOnSep ['\n'] t := by
  intro a
  induction a with
  | nil =>
    intro _
    rw [List.nil_append, splitOnSep_cons]
    have hp : (List.isPrefixOf ['\n'] ('\n' :: t) && !List.isEmpty ['\n']) = true := by
      simp [List.isPrefixOf, List.isEmpty]
    rw [if_pos hp]
    rfl
  | cons c a' ih =>
    intro h
    unfold containsSub at h
    simp only [Bool.or_eq_false_iff] at h
    have h1 := h.1
    simp [List.isPrefixOf] at h1
    rw [List.cons_append, splitOnSep_cons]
    have hp : (List.isPrefixOf ['\n'] (c :: (a' ++ '\n' :: t))
        && !List.isEmpty ['\n']) = false := by
      simp [List.isPrefixOf, List.isEmpty, h1]
    rw [hp]
    simp only [Bool.false_eq_true, if_false]
    rw [ih h.2]

theorem splitOnSep_cs_append (t : Str) :
    ∀ a : Str, containsSub commaSpace a = false →
      splitOnSep commaSpace (a ++ (commaSpace ++ t)) = a :: splitOnSep commaSpace t := by
  intro a
  induction a with
  | nil =>
    intro _
    rw [List.nil_append]
    show splitOnSep commaSpace (',' :: (' ' :: t)) = [] :: splitOnSep commaSpace t
    rw [splitOnSep_cons]
    have hp : (List.isPrefixOf commaSpace (',' :: ' ' :: t)
        && !List.isEmpty commaSpace) = true := by
      simp [commaSpace, List.isPrefixOf, List.isEmpty]
    rw [if_pos hp]
    rfl
  | cons c a' ih =>
    intro h
    unfold containsSub at h
    simp only [Bool.or_eq_false_iff] at h
    rw [List.cons_append, splitOnSep_cons]
    have hp : (List.isPrefixOf commaSpace (c :: (a' ++ (commaSpace ++ t)))
        && !List.isEmpty commaSpace) = false := by
      cases a' with
      | nil =>
        simp [commaSpace, List.isPrefixOf, List.isEmpty]
      | cons c2 a'' =>
        have h1 := h.1
        simp only [List.cons_append]
        simp [commaSpace, List.isPrefixOf, List.isEmpty] at h1 ⊢
        exact h1
    rw [hp]
    simp only [Bool.false_eq_true, if_false]
    rw [ih h.2]

theorem containsSub_single_append (c : Char) (a b : Str) :
    containsSub [c] (a ++ b) = (containsSub [c] a || containsSub [c] b) := by
  induction a with
  | nil => simp [containsSub]
  | cons x a' ih =>
    simp only [List.cons_append]
    rw [show containsSub [c] (x :: (a' ++ b))
        = (List.isPrefixOf [c] (x :: (a' ++ b)) || containsSub [c] (a' ++ b)) from rfl]
    rw [show containsSub [c] (x :: a')
        = (List.isPrefixOf [c] (x :: a') || containsSub [c] a') from rfl]
    rw [ih]
    have e1 : List.isPrefixOf [c] (x :: (a' ++ b)) = (c == x) := by
      simp [List.isPrefixOf]
    have e2 : List.isPrefixOf [c] (x :: a') = (c == x) := by
      simp [List.isPrefixOf]
    rw [e1, e2, Bool.or_assoc]

theorem rowLine_no_newline {r : SampleRecord} (h : cleanRecord r = true) :
    containsSub ['\n'] (rowLine r.sample_id r.project_id r.forward_file r.reverse_file)
      = false := by
  unfold cleanRecord cleanField at h
  simp only [Bool.and_eq_true, Bool.not_eq_true'] at h
  unfold rowLine
  simp only [containsSub_single_append, Bool.or_eq_false_iff]
  refine ⟨⟨⟨⟨⟨⟨h.1.1.1.2, by decide⟩, h.1.1.2.2⟩, by decide⟩, h.1.2.2⟩, by decide⟩, h.2.2⟩

theorem manifest_lines (records : List SampleRecord)
    (h : ∀ r ∈ records, cleanRecord r = true) :
    splitOnSep ['\n'] (manifestContent records)
      = dataLine :: headerLine ::
          (records.map (fun r =>
            rowLine r.sample_id r.project_id r.forward_file r.reverse_file) ++ [[]]) := by
  have hassoc : manifestContent records
      = dataLine ++ '\n' :: (headerLine ++ '\n' ::
          (records.map (fun r =>
            rowLineN r.sample_id r.project_id r.forward_file r.reverse_file)).flatten) := by
    unfold manifestContent dataLineN headerLineN
    simp [List.append_assoc]
  rw [hassoc, splitOnSep_nl_append _ dataLine (by decide),
    splitOnSep_nl_append _ headerLine (by decide)]
  have hrows : ∀ recs : List SampleRecord, (∀ r ∈ recs, cleanRecord r = true) →
      splitOnSep ['\n'] ((recs.map (fun r =>
          rowLineN r.sample_id r.project_id r.forward_file r.reverse_file)).flatten)
        = recs.map (fun r =>
            rowLine r.sample_id r.project_id r.forward_file r.reverse_file) ++ [[]] := by
    intro recs
    induction recs with
    | nil => intro _; rfl
    | cons r rs ih =>
      intro hc
      simp only [List.map_cons, List.flatten_cons]
      have h1 : rowLineN r.sample_id r.project_id r.forward_file r.reverse_file
          ++ ((rs.map (fun q =>
              rowLineN q.sample_id q.project_id q.forward_file q.reverse_file)).flatten)
          = rowLine r.sample_id r.project_id r.forward_file r.reverse_file
            ++ '\n' :: ((rs.map (fun q =>
              rowLineN q.sample_id q.project_id q.forward_file q.reverse_file)).flatten) := by
        simp [rowLineN, List.append_assoc]
      rw [h1, splitOnSep_nl_append _ _ (rowLine_no_newline (hc r (by simp))),
        ih (fun x hx => hc x (by simp [hx]))]
      simp
  rw [hrows records h]

theorem rowLine_fields {r : SampleRecord} (h : cleanRecord r = true) :
    splitOnSep commaSpace
        (rowLine r.sample_id r.project_id r.forward_file r.reverse_file)
      = [r.sample_id, r.project_id, r.forward_file, r.reverse_file] := by
  unfold cleanRecord cleanField at h
  simp only [Bool.and_eq_true, Bool.not_eq_true'] at h
  unfold rowLine
  simp only [List.append_assoc]
  rw [splitOnSep_cs_append _ _ h.1.1.1.1, splitOnSep_cs_append _ _ h.1.1.2.1,
    splitOnSep_cs_append _ _ h.1.2.1, splitOnSep_no_occurrence _ _ h.2.1]

theorem parseRow_rowLine {r : SampleRecord} (h : cleanRecord r = true) :
    parseRow (rowLine r.sample_id r.project_id r.forward_file r.reverse_file)
      = some r := by
  unfold parseRow
  rw [rowLine_fields h]

theorem mapM_parseRow (records : List SampleRecord)
    (h : ∀ r ∈ records, cleanRecord r = true) :
    (records.map (fun r =>
        rowLine r.sample_id r.project_id r.forward_file r.reverse_file)).mapM parseRow
      = some records := by
  induction records with
  | nil => rfl
  | cons r rs ih =>
    simp only [List.map_cons, List.mapM_cons]
    rw [parseRow_rowLine (h r (by simp)), ih (fun x hx => h x (by simp [hx]))]
    rfl

/-- C8 (amended): for every ordered sequence of sample records whose
fields are free of the two encoding metacharacters (the `", "`
separator and the newline), the written manifest consists of exactly
one literal section-marker line, one literal column-header line, and
one line per record holding `sample_id, project_id, forward_file,
reverse_file` (comma-then-space separated, `reverse_file` empty when
absent) - and parsing it back recovers exactly the same records in the
same order.  The field restriction is forced: the writer is not
injective on unrestricted fields (see the counterexample), so no
parser can recover every record sequence. -/
theorem claim_C8 (records : List SampleRecord)
    (h : ∀ r ∈ records, cleanRecord r = true) :
    splitOnSep ['\n'] (manifestContent records)
      = dataLine :: headerLine ::
          (records.map (fun r =>
            rowLine r.sample_id r.project_id r.forward_file r.reverse_file) ++ [[]]) ∧
    parseManifest (manifestContent records) = some records := by
  refine ⟨manifest_lines records h, ?_⟩
  have hm := manifest_lines records h
  have hred : parseManifest (manifestContent records)
      = (if ((dataLine == dataLine && headerLine == headerLine)
            && ((records.map (fun r : SampleRecord =>
                 rowLine r.sample_id r.project_id r.forward_file r.reverse_file)
                  ++ [[]]).getLast? == some ([] : Str)))
          then ((records.map (fun r : SampleRecord =>
                 rowLine r.sample_id r.project_id r.forward_file r.reverse_file)
                  ++ [[]]).dropLast).mapM parseRow
          else none) := by
    unfold parseManifest
    rw [hm]
  rw [hred, List.getLast?_concat, List.dropLast_concat]
  have hcond : ((dataLine == dataLine && headerLine == headerLine)
      && (some ([] : Str) == some ([] : Str))) = true := by decide
  rw [hcond, if_pos rfl, mapM_parseRow records h]

/-- Counterexample to C8 as stated: the manifest writer is not
injective over arbitrary records - a `", "` inside a field collides
with the separator - so two different record lists produce the very
same manifest text, and no parsing can recover both; in particular
parsing the written manifest does not recover this record list. -/
theorem claim_C8_counterexample :
    manifestContent [⟨"a".toList, "b".toList, "c".toList, "d, e".toList⟩]
      = manifestContent [⟨"a".toList, "b".toList, "c, d".toList, "e".toList⟩] ∧
    ([⟨"a".toList, "b".toList, "c".toList, "d, e".toList⟩] : List SampleRecord)
      ≠ [⟨"a".toList, "b".toList, "c, d".toList, "e".toList⟩] ∧
    parseManifest (manifestContent
        [⟨"a".toList, "b".toList, "c".toList, "d, e".toList⟩])
      ≠ some [⟨"a".toList, "b".toList, "c".toList, "d, e".toList⟩] := by
  exact ⟨by decide, by decide, by decide⟩

/-- Witness for C8 (amended): a single-end record (empty reverse field)
round-trips through the manifest text. -/
theorem claim_C8_witness :
    parseManifest (manifestContent
        [⟨"A".toList, "7".toList, "A.fastq.gz".toList, []⟩])
      = some [⟨"A".toList, "7".toList, "A.fastq.gz".toList, []⟩] :=
  (claim_C8 [⟨"A".toList, "7".toList, "A.fastq.gz".toList, []⟩] (by decide)).2

end Irida
